import Mathlib

/-!
Verification of the Ozon product-page scraper (`src/scraper.py`).

The pure data-manipulation core of `scrape_ozon_product` is embedded
shallowly: JSON values produced by `json.loads` become an inductive type,
the description normalisation (`.replace("\n\n", " ")`), the offers
selection, the characteristics-text pairing, and the stable image-URL
deduplication (`list(dict.fromkeys(...))`) become Lean functions, and the
control flow of the whole run (try/finally around the browser session,
per-step exception handling) becomes explicit `Except`-passing over a
model of the loaded page.
-/

namespace OzonScraper

/-- JSON values as produced by Python's `json.loads`: objects are
association lists with distinct keys (insertion order kept). -/
inductive JsonVal where
  | null
  | bool (b : Bool)
  | num (n : Int)
  | str (s : String)
  | arr (items : List JsonVal)
  | obj (fields : List (String × JsonVal))

/-- `dict.get(k)`: first binding of `k` in the association list, if any. -/
def lookupField : List (String × JsonVal) → String → Option JsonVal
  | [], _ => none
  | (k, v) :: fs, key => if k = key then some v else lookupField fs key

/-- Python's `s.replace("\n\n", " ")` on the character list of `s`:
left-to-right scan, non-overlapping occurrences of the two-character
pattern each replaced by one space (`scraper.py` line 84). -/
def replaceNN : List Char → List Char
  | '\n' :: '\n' :: rest => ' ' :: replaceNN rest
  | c :: rest => c :: replaceNN rest
  | [] => []

/-- The description normalisation applied at `scraper.py` line 84. -/
def descNormalize (s : String) : String :=
  ⟨replaceNN s.data⟩

/-- The characters stripped by Python's `str.strip()`. -/
def isPyWs (c : Char) : Bool :=
  c = ' ' || c = '\t' || c = '\n' || c = '\r' || c = '\x0b' || c = '\x0c'

/-- Python's `str.strip()` on a character list. -/
def pyStripList (l : List Char) : List Char :=
  ((l.dropWhile isPyWs).reverse.dropWhile isPyWs).reverse

/-- Python's `str.strip()`. -/
def pyStrip (s : String) : String :=
  ⟨pyStripList s.data⟩

/-- The boilerplate marker line searched for at `scraper.py` line 111. -/
def marker : String := "Добавить к сравнению"

/-- The scan of `scraper.py` lines 109-113: `start_index` begins at 0 and
becomes `i + 1` at the first line whose stripped text equals the marker;
`i` is threaded as the accumulator. -/
def startIndexGo : List String → Nat → Nat
  | [], _ => 0
  | l :: ls, i => if pyStrip l = marker then i + 1 else startIndexGo ls (i + 1)

/-- `start_index` computed over the whole line list. -/
def startIndex (lines : List String) : Nat :=
  startIndexGo lines 0

/-- The pairing loop of `scraper.py` lines 118-126: consume lines two at a
time as (name, value), both stripped; a trailing unpaired name hits
`StopIteration`, is logged, and produces no pair. -/
def pairUp : List String → List (String × String)
  | n :: v :: rest => (pyStrip n, pyStrip v) :: pairUp rest
  | _ => []

/-- Characteristics parsing of `scraper.py` lines 106-128 starting from the
split line list: drop everything up to and including the marker line, then
pair up the remainder. -/
def parseCharacteristics (lines : List String) : List (String × String) :=
  pairUp (lines.drop (startIndex lines))

/-- Insertion-order first-occurrence deduplication, the behaviour of
`dict.fromkeys` at `scraper.py` line 188; `seen` is the set of keys already
inserted. -/
def fromKeys (seen : List String) : List String → List String
  | [] => []
  | a :: l => if a ∈ seen then fromKeys seen l else a :: fromKeys (a :: seen) l

/-- `list(dict.fromkeys(image_urls))` (`scraper.py` line 188). -/
def dedupFirst (l : List String) : List String :=
  fromKeys [] l

/-- Index of the first occurrence of `x`, length of the list if absent. -/
def firstIdx (x : String) : List String → Nat
  | [] => 0
  | a :: l => if a = x then 0 else firstIdx x l + 1

/-- The per-variant gallery loop (`scraper.py` lines 150-170): each entry is
the `src` read for one variant, `none` when the click/wait/read failed (the
per-variant `except` skips it) or the attribute was null. -/
def galleryUrls (variants : List (Option String)) : List String :=
  variants.filterMap id

/-- The description-image collection (`scraper.py` lines 172-184): `none`
for the whole section means `find_element` raised and the `except` caught
it; inside, null `src` attributes are skipped. -/
def descriptionUrls : Option (List (Option String)) → List String
  | none => []
  | some imgs => imgs.filterMap id

/-- `scraped_data["image_urls"]` (`scraper.py` lines 137-188): gallery URLs
in variant order, then description URLs in document order, stably
deduplicated. -/
def imageUrlsResult (gallery descImgs : List String) : List String :=
  dedupFirst (gallery ++ descImgs)

/-- The output record built by `scrape_ozon_product`; `none` models an
absent key. -/
structure ScrapedData where
  name : Option JsonVal := none
  description : Option String := none
  price : Option JsonVal := none
  price_currency : Option JsonVal := none
  characteristics : List (String × String) := []
  image_urls : List String := []

/-- `offers` dispatch of `scraper.py` lines 85-91, applied to the value of
the `offers` key (default `[]`). A non-empty list uses element 0 only; its
`.get` calls raise `AttributeError` when element 0 is not a dict, which the
function body does not catch (`Except.error`). A dict is used directly.
Every other shape (empty list included, being falsy) leaves both price
keys unset. -/
def offersSelect : JsonVal → Except Unit (Option JsonVal × Option JsonVal)
  | .arr (.obj pfs :: _) => .ok (lookupField pfs "price", lookupField pfs "priceCurrency")
  | .arr (_ :: _) => .error ()
  | .obj pfs => .ok (lookupField pfs "price", lookupField pfs "priceCurrency")
  | _ => .ok (none, none)

/-- `json_data.get("offers", [])` (`scraper.py` line 85). -/
def offersOf (fs : List (String × JsonVal)) : JsonVal :=
  (lookupField fs "offers").getD (.arr [])

/-- The price part of the structured-data step for a parsed object. -/
def structPrice (fs : List (String × JsonVal)) :
    Except Unit (Option JsonVal × Option JsonVal) :=
  offersSelect (offersOf fs)

/-- Structured-data extraction (`scraper.py` lines 78-93). `none` input
means no `application/ld+json` script tag was found: the whole branch is
skipped and all four fields stay absent. With a tag present, the parsed
value is used as a dict (`.get` on a non-dict raises); `description` is
fetched with `.get` and then `.replace` is called on the result, which
raises `AttributeError` unless the value is a string — in particular when
the key is absent or null. No `except` protects this block, so the error
propagates. -/
def extractStructured : Option JsonVal → Except Unit ScrapedData
  | none => .ok {}
  | some (.obj fs) =>
    match lookupField fs "description" with
    | some (.str s) =>
      match structPrice fs with
      | .ok (p, c) =>
        .ok { name := lookupField fs "name"
              description := some (descNormalize s)
              price := p
              price_currency := c }
      | .error e => .error e
    | _ => .error ()
  | some _ => .error ()

/-- The characteristics step (`scraper.py` lines 99-135): any exception in
locating or parsing the section is caught and yields `[]`; `none` models a
missing section. -/
def extractCharacteristicsStep : Option (List String) → List (String × String)
  | some lines => parseCharacteristics lines
  | none => []

/-- A model of the loaded page: what each extraction source yields. -/
structure PageModel where
  scriptTag : Option JsonVal
  charLines : Option (List String)
  variantImages : List (Option String)
  descImages : Option (List (Option String))

/-- The extraction body of `scrape_ozon_product` after the page is loaded
(`scraper.py` lines 72-192): structured data first (its errors propagate),
then the individually-guarded DOM steps, then the merge. -/
def scrapeBody (page : PageModel) : Except Unit ScrapedData :=
  match extractStructured page.scriptTag with
  | .error e => .error e
  | .ok d =>
    .ok { d with
          characteristics := extractCharacteristicsStep page.charLines
          image_urls :=
            imageUrlsResult (galleryUrls page.variantImages)
              (descriptionUrls page.descImages) }

/-- The whole run with the `try/finally` of `scraper.py` lines 28-198:
`driver` starts as `None`; if the launch fails the `finally` clause finds
`driver` falsy and calls no `quit`; once the launch succeeded, `finally`
calls `driver.quit()` exactly once whatever the body did. The second
component counts `quit` calls. -/
def scrapeRun (launchOk : Bool) (page : PageModel) :
    Except Unit ScrapedData × Nat :=
  if launchOk then (scrapeBody page, 1) else (.error (), 0)

/-- The alphabet of page-load actions (`scraper.py` lines 52-67).
`keyEvent` is the neutral-key dispatch the specification describes; it is
part of the alphabet so that its absence from the actual trace can be
stated. -/
inductive LoadAction where
  | navigate (url : String)
  | sleepUniform (lo hi : Nat)
  | keyEvent
  | scrollToBottom
  | waitFor (domId : String) (timeoutSecs : Nat)
  deriving DecidableEq

/-- The page-load action sequence actually performed by `scraper.py` lines
52-67: `driver.get`, `time.sleep(random.uniform(5.0, 8.0))`, the scroll to
`document.body.scrollHeight`, and the 30-second `WebDriverWait` for
`section-characteristics`. -/
def pageLoadActions (url : String) : List LoadAction :=
  [.navigate url, .sleepUniform 5 8, .scrollToBottom,
   .waitFor "section-characteristics" 30]

/-- `wait.until(...)` for the characteristics section: raises on timeout. -/
def waitCharacteristics (found : Bool) : Except Unit Unit :=
  if found then .ok () else .error ()

/-- The `try/except` around the wait (`scraper.py` lines 61-67): a timeout
is caught, logged, and execution proceeds. -/
def pageLoadAfterWait (found : Bool) : Except Unit Unit :=
  match waitCharacteristics found with
  | .ok _ => .ok ()
  | .error _ => .ok ()

/-- Whether a character list contains the two-character pattern of a double
line break (specification-side notion, for stating that the normalisation
leaves none behind). -/
def containsNN : List Char → Bool
  | '\n' :: '\n' :: _ => true
  | _ :: rest => containsNN rest
  | [] => false

/-- A run of `k` consecutive blank-line pairs (specification-side notion). -/
def nlPairs : Nat → List Char
  | 0 => []
  | k + 1 => '\n' :: '\n' :: nlPairs k

/-! ## Helper lemmas -/

lemma replaceNN_cons_of_ne (c : Char) (hc : c ≠ '\n') (l : List Char) :
    replaceNN (c :: l) = c :: replaceNN l := by
  cases l with
  | nil => simp [replaceNN, hc]
  | cons d r => simp [replaceNN, hc]

lemma replaceNN_nl_cons_of_ne (d : Char) (hd : d ≠ '\n') (r : List Char) :
    replaceNN ('\n' :: d :: r) = '\n' :: replaceNN (d :: r) := by
  simp [replaceNN, hd]

lemma containsNN_cons_of_ne (c : Char) (hc : c ≠ '\n') (l : List Char) :
    containsNN (c :: l) = containsNN l := by
  cases l with
  | nil => simp [containsNN, hc]
  | cons d r => simp [containsNN, hc]

lemma containsNN_nl_cons_of_ne (d : Char) (hd : d ≠ '\n') (l : List Char) :
    containsNN ('\n' :: d :: l) = containsNN (d :: l) := by
  simp [containsNN, hd]

lemma containsNN_replaceNN (l : List Char) : containsNN (replaceNN l) = false := by
  induction l using replaceNN.induct with
  | case1 rest ih =>
    have e : replaceNN ('\n' :: '\n' :: rest) = ' ' :: replaceNN rest := rfl
    rw [e, containsNN_cons_of_ne ' ' (by decide) _]
    exact ih
  | case2 c rest h ih =>
    by_cases hc : c = '\n'
    · subst hc
      cases rest with
      | nil => rfl
      | cons d r =>
        have hd : d ≠ '\n' := fun hdeq => h r rfl (by rw [hdeq])
        rw [replaceNN_nl_cons_of_ne d hd r, replaceNN_cons_of_ne d hd r,
          containsNN_nl_cons_of_ne d hd _]
        rw [replaceNN_cons_of_ne d hd r] at ih
        exact ih
    · rw [replaceNN_cons_of_ne c hc, containsNN_cons_of_ne c hc]
      exact ih
  | case3 => rfl

lemma replaceNN_nlPairs_append (k : Nat) (l : List Char) :
    replaceNN (nlPairs k ++ l) = List.replicate k ' ' ++ replaceNN l := by
  induction k with
  | zero => rfl
  | succ k ih =>
    have e : nlPairs (k + 1) ++ l = '\n' :: '\n' :: (nlPairs k ++ l) := rfl
    rw [e]
    have e2 : replaceNN ('\n' :: '\n' :: (nlPairs k ++ l)) =
        ' ' :: replaceNN (nlPairs k ++ l) := rfl
    rw [e2, ih]
    rfl

lemma mem_fromKeys (l : List String) : ∀ (seen : List String) (x : String),
    x ∈ fromKeys seen l ↔ x ∈ l ∧ x ∉ seen := by
  induction l with
  | nil => intro seen x; simp [fromKeys]
  | cons a l ih =>
    intro seen x
    by_cases ha : a ∈ seen
    · simp only [fromKeys, if_pos ha]
      rw [ih seen x]
      constructor
      · rintro ⟨hx, hs⟩
        exact ⟨List.mem_cons_of_mem a hx, hs⟩
      · rintro ⟨hx, hs⟩
        rcases List.mem_cons.mp hx with hxa | hx
        · exact absurd (hxa ▸ ha) hs
        · exact ⟨hx, hs⟩
    · simp only [fromKeys, if_neg ha]
      constructor
      · intro hmem
        rcases List.mem_cons.mp hmem with hxa | hx
        · rw [hxa]
          exact ⟨List.mem_cons_self a l, ha⟩
        · have h2 := (ih (a :: seen) x).mp hx
          exact ⟨List.mem_cons_of_mem a h2.1, fun hxs => h2.2 (List.mem_cons_of_mem a hxs)⟩
      · rintro ⟨hx, hs⟩
        by_cases hxa : x = a
        · rw [hxa]; exact List.mem_cons_self a _
        · rcases List.mem_cons.mp hx with h | h
          · exact absurd h hxa
          · refine List.mem_cons_of_mem a ((ih (a :: seen) x).mpr ⟨h, ?_⟩)
            intro hxs
            rcases List.mem_cons.mp hxs with h2 | h2
            · exact hxa h2
            · exact hs h2

lemma sublist_fromKeys (l : List String) :
    ∀ seen : List String, List.Sublist (fromKeys seen l) l := by
  induction l with
  | nil => intro seen; simp [fromKeys]
  | cons a l ih =>
    intro seen
    by_cases ha : a ∈ seen
    · simp only [fromKeys, if_pos ha]
      exact (ih seen).cons a
    · simp only [fromKeys, if_neg ha]
      exact (ih (a :: seen)).cons₂ a

lemma nodup_fromKeys (l : List String) : ∀ seen : List String, (fromKeys seen l).Nodup := by
  induction l with
  | nil => intro seen; simp [fromKeys]
  | cons a l ih =>
    intro seen
    by_cases ha : a ∈ seen
    · simp only [fromKeys, if_pos ha]; exact ih seen
    · simp only [fromKeys, if_neg ha]
      refine List.nodup_cons.mpr ⟨fun hmem => ?_, ih (a :: seen)⟩
      exact ((mem_fromKeys l (a :: seen) a).mp hmem).2 (List.mem_cons_self a seen)

lemma firstIdx_cons_of_ne (x a : String) (l : List String) (h : a ≠ x) :
    firstIdx x (a :: l) = firstIdx x l + 1 := by
  simp [firstIdx, h]

lemma firstIdx_cons_self (a : String) (l : List String) :
    firstIdx a (a :: l) = 0 := by
  simp [firstIdx]

lemma fromKeys_order (l : List String) : ∀ (seen : List String) (x y : String),
    x ∈ fromKeys seen l → y ∈ fromKeys seen l → x ≠ y →
    (firstIdx x (fromKeys seen l) < firstIdx y (fromKeys seen l) ↔
     firstIdx x l < firstIdx y l) := by
  induction l with
  | nil => intro seen x y hx; simp [fromKeys] at hx
  | cons a l ih =>
    intro seen x y hx hy hxy
    by_cases ha : a ∈ seen
    · simp only [fromKeys, if_pos ha] at hx hy ⊢
      have hxs : x ∉ seen := ((mem_fromKeys l seen x).mp hx).2
      have hys : y ∉ seen := ((mem_fromKeys l seen y).mp hy).2
      have hxa : a ≠ x := fun h => hxs (h ▸ ha)
      have hya : a ≠ y := fun h => hys (h ▸ ha)
      rw [firstIdx_cons_of_ne x a l hxa, firstIdx_cons_of_ne y a l hya,
        Nat.add_lt_add_iff_right]
      exact ih seen x y hx hy hxy
    · simp only [fromKeys, if_neg ha] at hx hy ⊢
      by_cases hxa : x = a
      · have hay : a ≠ y := fun h => hxy (hxa.trans h)
        rw [hxa, firstIdx_cons_self a _, firstIdx_cons_self a l,
          firstIdx_cons_of_ne y a _ hay, firstIdx_cons_of_ne y a l hay]
        omega
      · by_cases hya : y = a
        · have hax : a ≠ x := fun h => hxy ((h ▸ hya : y = x).symm)
          rw [hya, firstIdx_cons_self a _, firstIdx_cons_self a l,
            firstIdx_cons_of_ne x a _ hax, firstIdx_cons_of_ne x a l hax]
          omega
        · have hx2 : x ∈ fromKeys (a :: seen) l := by
            rcases List.mem_cons.mp hx with h | h
            · exact absurd h hxa
            · exact h
          have hy2 : y ∈ fromKeys (a :: seen) l := by
            rcases List.mem_cons.mp hy with h | h
            · exact absurd h hya
            · exact h
          have hax : a ≠ x := fun h => hxa h.symm
          have hay : a ≠ y := fun h => hya h.symm
          rw [firstIdx_cons_of_ne x a _ hax, firstIdx_cons_of_ne y a _ hay,
            firstIdx_cons_of_ne x a l hax, firstIdx_cons_of_ne y a l hay,
            Nat.add_lt_add_iff_right, Nat.add_lt_add_iff_right]
          exact ih (a :: seen) x y hx2 hy2 hxy

lemma startIndexGo_append (pre : List String) (m : String) (post : List String)
    (hpre : ∀ l ∈ pre, pyStrip l ≠ marker) (hm : pyStrip m = marker) :
    ∀ i : Nat, startIndexGo (pre ++ m :: post) i = i + pre.length + 1 := by
  induction pre with
  | nil => intro i; simp [startIndexGo, hm]
  | cons p pre ih =>
    intro i
    have hp : pyStrip p ≠ marker := hpre p (List.mem_cons_self p pre)
    have hpre2 : ∀ l ∈ pre, pyStrip l ≠ marker := fun l hl => hpre l (List.mem_cons_of_mem p hl)
    simp only [List.cons_append, startIndexGo, if_neg hp, List.append_eq]
    rw [ih hpre2 (i + 1)]
    simp only [List.length_cons]
    omega

lemma startIndexGo_none (lines : List String) (h : ∀ l ∈ lines, pyStrip l ≠ marker) :
    ∀ i : Nat, startIndexGo lines i = 0 := by
  induction lines with
  | nil => intro i; rfl
  | cons p ls ih =>
    intro i
    have hp : pyStrip p ≠ marker := h p (List.mem_cons_self p ls)
    simp only [startIndexGo, if_neg hp]
    exact ih (fun l hl => h l (List.mem_cons_of_mem p hl)) (i + 1)

lemma parse_skip (pre : List String) (m : String) (post : List String)
    (hpre : ∀ l ∈ pre, pyStrip l ≠ marker) (hm : pyStrip m = marker) :
    parseCharacteristics (pre ++ m :: post) = pairUp post := by
  unfold parseCharacteristics startIndex
  rw [startIndexGo_append pre m post hpre hm 0]
  have e : (0 : Nat) + pre.length + 1 = pre.length + 1 := by omega
  rw [e]
  have hdrop : (pre ++ m :: post).drop (pre.length + 1) = post := by
    have h2 := @List.drop_append String pre (m :: post) 1
    exact h2
  rw [hdrop]

lemma pairUp_length (l : List String) : (pairUp l).length = l.length / 2 := by
  induction l using pairUp.induct with
  | case1 n v rest ih =>
    simp only [pairUp, List.length_cons, ih]
    omega
  | case2 t h =>
    match t, h with
    | [], _ => simp [pairUp]
    | [n], _ => simp [pairUp]
    | n :: v :: r, h2 => exact (h2 n v r rfl).elim

lemma scrapeBody_scriptNone (page : PageModel) (h : page.scriptTag = none) :
    scrapeBody page =
      .ok { name := none
            description := none
            price := none
            price_currency := none
            characteristics := extractCharacteristicsStep page.charLines
            image_urls := imageUrlsResult (galleryUrls page.variantImages)
              (descriptionUrls page.descImages) } := by
  unfold scrapeBody
  rw [h]
  rfl

/-! ## Claim theorems -/

/-- C1: the final image-URL list is the stable first-occurrence
deduplication of gallery URLs (in variant order) followed by description
URLs (in document order): it has no duplicate entries, it is a sublist of
the concatenation, it keeps exactly the URLs that occur in the input, and
the relative order of any two surviving URLs equals the relative order of
their first occurrences in the concatenation. -/
theorem image_urls_stable_dedup (gallery descImgs : List String) :
    (imageUrlsResult gallery descImgs).Nodup ∧
    List.Sublist (imageUrlsResult gallery descImgs) (gallery ++ descImgs) ∧
    (∀ x, x ∈ imageUrlsResult gallery descImgs ↔ x ∈ gallery ++ descImgs) ∧
    (∀ x y, x ∈ imageUrlsResult gallery descImgs → y ∈ imageUrlsResult gallery descImgs →
      x ≠ y →
      (firstIdx x (imageUrlsResult gallery descImgs) <
         firstIdx y (imageUrlsResult gallery descImgs) ↔
       firstIdx x (gallery ++ descImgs) < firstIdx y (gallery ++ descImgs))) := by
  have base : imageUrlsResult gallery descImgs = fromKeys [] (gallery ++ descImgs) := rfl
  refine ⟨?_, ?_, ?_, ?_⟩
  · rw [base]; exact nodup_fromKeys _ []
  · rw [base]; exact sublist_fromKeys _ []
  · intro x
    rw [base, mem_fromKeys]
    simp
  · intro x y hx hy hxy
    rw [base] at hx hy ⊢
    exact fromKeys_order (gallery ++ descImgs) [] x y hx hy hxy

/-- C1 witness: a concrete run of the deduplication. -/
theorem image_urls_stable_dedup_witness :
    imageUrlsResult ["a", "b", "a"] ["b", "c"] = ["a", "b", "c"] ∧
    (imageUrlsResult ["a", "b", "a"] ["b", "c"]).Nodup :=
  ⟨rfl, (image_urls_stable_dedup ["a", "b", "a"] ["b", "c"]).1⟩

/-- C2: for every parsed structured-data object, when the `offers` value is
a non-empty list the price fields come from element 0 only (the result
never depends on the later elements); when it is a single object they come
from that object; when `offers` is absent, an empty list, or any other
shape, both price fields stay absent. -/
theorem offers_selection_spec (fs : List (String × JsonVal)) :
    (∀ pfs rest, offersOf fs = .arr (.obj pfs :: rest) →
      structPrice fs = .ok (lookupField pfs "price", lookupField pfs "priceCurrency")) ∧
    (∀ o r r', offersSelect (.arr (o :: r)) = offersSelect (.arr (o :: r'))) ∧
    (∀ pfs, offersOf fs = .obj pfs →
      structPrice fs = .ok (lookupField pfs "price", lookupField pfs "priceCurrency")) ∧
    (lookupField fs "offers" = none → structPrice fs = .ok (none, none)) ∧
    (offersOf fs = .arr [] → structPrice fs = .ok (none, none)) ∧
    (∀ v, offersOf fs = v → (∀ o r, v ≠ .arr (o :: r)) → (∀ pfs, v ≠ .obj pfs) →
      structPrice fs = .ok (none, none)) := by
  refine ⟨?_, ?_, ?_, ?_, ?_, ?_⟩
  · intro pfs rest h
    unfold structPrice
    rw [h]
    rfl
  · intro o r r'
    cases o <;> rfl
  · intro pfs h
    unfold structPrice
    rw [h]
    rfl
  · intro h
    unfold structPrice offersOf
    rw [h]
    rfl
  · intro h
    unfold structPrice
    rw [h]
    rfl
  · intro v hv hlist hobj
    unfold structPrice
    rw [hv]
    cases v with
    | arr items =>
      cases items with
      | nil => rfl
      | cons o r => exact (hlist o r rfl).elim
    | obj pfs => exact (hobj pfs rfl).elim
    | null => rfl
    | bool b => rfl
    | num n => rfl
    | str s => rfl

/-- C2 witness: with a two-element `offers` list the price comes from
element 0 only. -/
theorem offers_selection_spec_witness :
    structPrice
      [("offers", JsonVal.arr
        [JsonVal.obj [("price", JsonVal.str "100"), ("priceCurrency", JsonVal.str "RUB")],
         JsonVal.obj [("price", JsonVal.str "200")]])]
      = .ok (some (JsonVal.str "100"), some (JsonVal.str "RUB")) := by
  have h := (offers_selection_spec
      [("offers", JsonVal.arr
        [JsonVal.obj [("price", JsonVal.str "100"), ("priceCurrency", JsonVal.str "RUB")],
         JsonVal.obj [("price", JsonVal.str "200")]])]).1
      [("price", JsonVal.str "100"), ("priceCurrency", JsonVal.str "RUB")]
      [JsonVal.obj [("price", JsonVal.str "200")]] rfl
  exact h

/-- C3: the description normalisation collapses double line breaks to
single spaces: the string holding A, a blank-line pair, then B becomes A,
space, B; a run of `k` consecutive blank-line pairs collapses to `k`
spaces; and no double line break survives in any normalised output. -/
theorem description_double_newline_collapse :
    descNormalize "A\n\nB" = "A B" ∧
    (∀ k, replaceNN ('A' :: (nlPairs k ++ ['B'])) =
      'A' :: (List.replicate k ' ' ++ ['B'])) ∧
    (∀ l, containsNN (replaceNN l) = false) := by
  refine ⟨rfl, ?_, containsNN_replaceNN⟩
  intro k
  rw [replaceNN_cons_of_ne 'A' (by decide) _, replaceNN_nlPairs_append]
  rfl

/-- C3 witness: two consecutive blank-line pairs each collapse. -/
theorem description_double_newline_collapse_witness :
    replaceNN ['A', '\n', '\n', '\n', '\n', 'B'] = ['A', ' ', ' ', 'B'] := by
  have h := description_double_newline_collapse.2.1 2
  exact h

/-- C4: all lines up to and including the first line whose stripped text is
the comparison marker are discarded; the remaining lines are consumed two
at a time as stripped (name, value) pairs; a trailing unpaired line yields
no pair (the pair count is the floor of half the line count). -/
theorem characteristics_marker_pairing (pre : List String) (m : String) (post : List String)
    (hpre : ∀ l ∈ pre, pyStrip l ≠ marker) (hm : pyStrip m = marker) :
    parseCharacteristics (pre ++ m :: post) = pairUp post ∧
    (∀ n v rest, pairUp (n :: v :: rest) = (pyStrip n, pyStrip v) :: pairUp rest) ∧
    (∀ n, pairUp [n] = []) ∧
    (∀ l, (pairUp l).length = l.length / 2) := by
  refine ⟨parse_skip pre m post hpre hm, fun n v rest => rfl, fun n => rfl, pairUp_length⟩

/-- C4 witness: the spec's example, with an odd trailing line dropped. -/
theorem characteristics_marker_pairing_witness :
    parseCharacteristics
      ["header", "Добавить к сравнению", "Color", "Red", "Size", "M", "Weight"]
      = [("Color", "Red"), ("Size", "M")] := by
  have h := characteristics_marker_pairing ["header"] "Добавить к сравнению"
    ["Color", "Red", "Size", "M", "Weight"] (by decide) (by decide)
  exact h.1.trans rfl

/-- C5: when no structured-data script block is present, the extraction
does not raise: name, description, price and priceCurrency are all absent
and the DOM extraction steps still run and populate the record. -/
theorem missing_script_all_absent (page : PageModel) (h : page.scriptTag = none) :
    scrapeBody page =
      .ok { name := none
            description := none
            price := none
            price_currency := none
            characteristics := extractCharacteristicsStep page.charLines
            image_urls := imageUrlsResult (galleryUrls page.variantImages)
              (descriptionUrls page.descImages) } :=
  scrapeBody_scriptNone page h

/-- C5 witness: a page with no script tag, no characteristics section, no
variants and no description section yields the all-absent record. -/
theorem missing_script_all_absent_witness :
    scrapeBody ⟨none, none, [], none⟩ = .ok ⟨none, none, none, none, [], []⟩ :=
  missing_script_all_absent ⟨none, none, [], none⟩ rfl

/-- C6: the code contradicts the best-effort contract: with a structured-
data block present but its description field absent,
`json_data.get("description").replace(...)` raises `AttributeError` and the
extraction run fails instead of leaving the field absent. -/
theorem missing_description_crashes :
    scrapeBody ⟨some (.obj [("name", .str "X")]), none, [], none⟩ = .error () := rfl

/-- C7: once the browser session is acquired, the run returns the body's
outcome — normal record or propagated error — and `driver.quit` is invoked
exactly once. -/
theorem driver_quit_exactly_once (page : PageModel) :
    (scrapeRun true page).1 = scrapeBody page ∧ (scrapeRun true page).2 = 1 :=
  ⟨rfl, rfl⟩

/-- C8 counterexample: a run in which the price is never located (no
structured-data block, hence no price source) returns the record normally
with the price fields absent; it is not treated as a hard failure. -/
theorem no_price_run_returns_normally :
    scrapeRun true ⟨none, some ["Color", "Red"], [none], some []⟩ =
      (.ok ⟨none, none, none, none, [("Color", "Red")], []⟩, 1) := rfl

/-- C8 amended: the code has no bounded wait for a price element; when the
price is never located the run does not fail — the record is returned
normally with both price fields absent. -/
theorem no_price_is_non_fatal (page : PageModel) (h : page.scriptTag = none) :
    ∃ r, scrapeRun true page = (.ok r, 1) ∧ r.price = none ∧ r.price_currency = none := by
  have hb := scrapeBody_scriptNone page h
  refine ⟨{ name := none
            description := none
            price := none
            price_currency := none
            characteristics := extractCharacteristicsStep page.charLines
            image_urls := imageUrlsResult (galleryUrls page.variantImages)
              (descriptionUrls page.descImages) }, ?_, rfl, rfl⟩
  unfold scrapeRun
  rw [if_pos rfl, hb]

/-- C8 witness: a concrete page with DOM content but no price source. -/
theorem no_price_is_non_fatal_witness :
    ∃ r, scrapeRun true ⟨none, some ["Вес", "1 кг"], [some "u1"], some [some "u2"]⟩ =
      (.ok r, 1) ∧ r.price = none ∧ r.price_currency = none :=
  no_price_is_non_fatal ⟨none, some ["Вес", "1 кг"], [some "u1"], some [some "u2"]⟩ rfl

/-- C9 counterexample: the page-load sequence dispatches no key event at
all — there is no escape-signal step between the sleep and the scroll. -/
theorem no_key_event_dispatched :
    LoadAction.keyEvent ∉ pageLoadActions "https://www.ozon.ru/product/p" := by
  decide

/-- C9 amended: the page-load sequence is navigation, a randomized uniform
sleep of 5 to 8 seconds, a scroll to the bottom, then a bounded 30-second
wait for the characteristics region whose timeout is non-fatal (execution
proceeds either way); no key event is dispatched. -/
theorem page_load_sequence (url : String) (found : Bool) :
    pageLoadActions url =
      [.navigate url, .sleepUniform 5 8, .scrollToBottom,
       .waitFor "section-characteristics" 30] ∧
    pageLoadAfterWait found = .ok () ∧
    LoadAction.keyEvent ∉ pageLoadActions url := by
  refine ⟨rfl, ?_, ?_⟩
  · cases found <;> rfl
  · simp [pageLoadActions]

/-- C10: when the comparison-marker line occurs nowhere, no lines are
discarded: pairing starts at the very first line, so header lines are
emitted as characteristic pairs. -/
theorem no_marker_no_discard (lines : List String)
    (h : ∀ l ∈ lines, pyStrip l ≠ marker) :
    parseCharacteristics lines = pairUp lines := by
  unfold parseCharacteristics startIndex
  rw [startIndexGo_none lines h 0]
  rfl

/-- C10 witness: a header line becomes a characteristic name. -/
theorem no_marker_no_discard_witness :
    parseCharacteristics ["header", "Color"] = [("header", "Color")] := by
  have h := no_marker_no_discard ["header", "Color"] (by decide)
  rw [h]
  rfl

end OzonScraper
